import Mathlib

/-!
Verification of the article-filtering / cleaning / Q&A-generation core of
the `daqa` repository (`src/daqa/generate.py`).

Strings are modelled as `List Char`.  Each Python `re.sub` pass of
`clean_wikitext` and `is_include_only` is embedded as a deterministic
left-to-right scanner that mirrors the (backtracking-free, as analysed per
pattern) behaviour of the concrete regular expression on these patterns.
External library capabilities (hashlib md5, json, the OpenAI client) are
parameters of the model, as they are external collaborators of the code.
-/

namespace Daqa

/-- Python whitespace characters recognised by `str.strip` / `str.split` / `\s`
(restricted to the ASCII range used throughout). -/
def isSpace (c : Char) : Bool :=
  c = ' ' || c = '\t' || c = '\n' || c = '\r' || c = '\x0b' || c = '\x0c'

/-- Python `str.strip()`: drop leading and trailing whitespace. -/
def pythonStrip (l : List Char) : List Char :=
  ((l.dropWhile isSpace).reverse.dropWhile isSpace).reverse

/-- Auxiliary for Python `str.split()`: accumulate the current word (reversed). -/
def wordsAux : List Char → List Char → List (List Char)
  | acc, [] => if acc.isEmpty then [] else [acc.reverse]
  | acc, c :: rest =>
    if isSpace c then
      if acc.isEmpty then wordsAux [] rest else acc.reverse :: wordsAux [] rest
    else wordsAux (c :: acc) rest

/-- Python `str.split()` with no separator: whitespace-separated words, no empties. -/
def pySplit (l : List Char) : List (List Char) := wordsAux [] l

/-- If `pat` is a literal prefix of `l`, return the remainder after it. -/
def dropLit : List Char → List Char → Option (List Char)
  | [], l => some l
  | _ :: _, [] => none
  | p :: ps, c :: cs => if p = c then dropLit ps cs else none

/-- Scan `l` for the first occurrence of the (nonempty) literal `close`;
return the remainder after that occurrence.  Models a lazy `.*?close`. -/
def dropThrough (close : List Char) : List Char → Option (List Char)
  | [] => if close.isEmpty then some [] else none
  | c :: rest =>
    if close.isPrefixOf (c :: rest) then some (List.drop close.length (c :: rest))
    else dropThrough close rest

/-- Does `l` contain `pat` as a contiguous substring? -/
def hasSub (pat : List Char) : List Char → Bool
  | [] => pat.isEmpty
  | c :: rest => pat.isPrefixOf (c :: rest) || hasSub pat rest

/-- One match of `{{[^}]*}}` at the head of `l`: `{{`, then the run up to the
first `}` (the only way the greedy class can match), which must be followed by
a second `}`.  Returns the remainder after the match. -/
def tryTemplate (l : List Char) : Option (List Char) :=
  match dropLit ['{', '{'] l with
  | none => none
  | some rest =>
    match rest.dropWhile (fun c => !(c = '}')) with
    | '}' :: '}' :: suffix => some suffix
    | _ => none

/-- One match of `\[\[Kategori:[^\]]*\]\]` at the head of `l`. -/
def tryKategori (l : List Char) : Option (List Char) :=
  match dropLit ('[' :: '[' :: 'K' :: 'a' :: 't' :: 'e' :: 'g' :: 'o' :: 'r' :: 'i' :: ':' :: []) l with
  | none => none
  | some rest =>
    match rest.dropWhile (fun c => !(c = ']')) with
    | ']' :: ']' :: suffix => some suffix
    | _ => none

/-- One match of `\[http[^\]]*\]` at the head of `l`. -/
def tryExtLink (l : List Char) : Option (List Char) :=
  match dropLit ('[' :: 'h' :: 't' :: 't' :: 'p' :: []) l with
  | none => none
  | some rest =>
    match rest.dropWhile (fun c => !(c = ']')) with
    | ']' :: suffix => some suffix
    | _ => none

/-- One match of `<!--.*?-->` (DOTALL) at the head of `l`. -/
def tryComment (l : List Char) : Option (List Char) :=
  match dropLit ('<' :: '!' :: '-' :: '-' :: []) l with
  | none => none
  | some rest => dropThrough ('-' :: '-' :: '>' :: []) rest

/-- One match of `<ref[^>]*>.*?</ref>` (DOTALL) at the head of `l`. -/
def tryRef (l : List Char) : Option (List Char) :=
  match dropLit ('<' :: 'r' :: 'e' :: 'f' :: []) l with
  | none => none
  | some rest =>
    match rest.dropWhile (fun c => !(c = '>')) with
    | '>' :: afterOpen => dropThrough ('<' :: '/' :: 'r' :: 'e' :: 'f' :: '>' :: []) afterOpen
    | _ => none

/-- `[^\]]+\]\]` with the capture: the run up to the first `]`, which must be
nonempty and followed by `]]`.  Returns (capture, remainder). -/
def linkBody (r : List Char) : Option (List Char × List Char) :=
  match r.dropWhile (fun c => !(c = ']')) with
  | ']' :: ']' :: suffix =>
    if (r.takeWhile (fun c => !(c = ']'))).isEmpty then none
    else some (r.takeWhile (fun c => !(c = ']')), suffix)
  | _ => none

/-- One match of `\[\[(?:[^|\]]*\|)?([^\]]+)\]\]` at the head of `l`, giving
the replacement text `\1` and the remainder.  The optional group is tried
first (greedy `?`); it can only match through the first `|` reached without
crossing a `]`, and on failure of the rest the group falls back to empty. -/
def tryLink (l : List Char) : Option (List Char × List Char) :=
  match dropLit ['[', '['] l with
  | none => none
  | some rest =>
    match rest.dropWhile (fun c => !(c = '|' || c = ']')) with
    | '|' :: afterPipe =>
      match linkBody afterPipe with
      | some res => some res
      | none => linkBody rest
    | _ => linkBody rest

/-- A generic `re.sub(pattern, '', ·)` pass: a left-to-right scan in which
`tryF` decides whether a match starts at the current position (returning the
remainder after the match).  The fuel is at least the length of the list;
each step consumes at least one character, so the fuel never runs out. -/
def subPass (tryF : List Char → Option (List Char)) : Nat → List Char → List Char
  | 0, l => l
  | Nat.succ fuel, l =>
    match l with
    | [] => []
    | c :: rest =>
      match tryF (c :: rest) with
      | some suffix => subPass tryF fuel suffix
      | none => c :: subPass tryF fuel rest

/-- `re.sub(r'{{[^}]*}}', '', ·)`. -/
def subTemplates : Nat → List Char → List Char := subPass tryTemplate

/-- `re.sub(r'\[\[Kategori:[^\]]*\]\]', '', ·)`. -/
def subKategori : Nat → List Char → List Char := subPass tryKategori

/-- `re.sub(r'\[http[^\]]*\]', '', ·)`. -/
def subExtLink : Nat → List Char → List Char := subPass tryExtLink

/-- `re.sub(r'<!--.*?-->', '', ·, flags=re.DOTALL)`. -/
def subComment : Nat → List Char → List Char := subPass tryComment

/-- `re.sub(r'<ref[^>]*>.*?</ref>', '', ·, flags=re.DOTALL)`. -/
def subRef : Nat → List Char → List Char := subPass tryRef

/-- `re.sub(r'\[\[(?:[^|\]]*\|)?([^\]]+)\]\]', r'\1', ·)`: the replacement
(the captured label/target) is emitted and not rescanned. -/
def subLinks : Nat → List Char → List Char
  | 0, l => l
  | Nat.succ fuel, l =>
    match l with
    | [] => []
    | c :: rest =>
      match tryLink (c :: rest) with
      | some res => res.1 ++ subLinks fuel res.2
      | none => c :: subLinks fuel rest

/-- `clean_wikitext` from `src/daqa/generate.py`: the six substitution passes
in source order, then `str.strip()`. -/
def cleanList (t : List Char) : List Char :=
  let t1 := subTemplates t.length t
  let t2 := subKategori t1.length t1
  let t3 := subExtLink t2.length t2
  let t4 := subComment t3.length t3
  let t5 := subRef t4.length t4
  let t6 := subLinks t5.length t5
  pythonStrip t6

/-- `clean_wikitext` on Lean strings. -/
def clean_wikitext (s : String) : String := ⟨cleanList s.data⟩

/-- `is_redirect` from `src/daqa/generate.py`:
`text.strip().lower().startswith('#redirect')`.  Python `str.lower` is
modelled characterwise by `Char.toLower`. -/
def is_redirect (text : List Char) : Bool :=
  ('#' :: 'r' :: 'e' :: 'd' :: 'i' :: 'r' :: 'e' :: 'c' :: 't' :: []).isPrefixOf
    ((pythonStrip text).map Char.toLower)

/-- `is_meaningful_article` from `src/daqa/generate.py`: cleaned content must
have at least 300 characters and at least 50 whitespace-separated words. -/
def is_meaningful_article (content : List Char) : Bool :=
  300 ≤ content.length && 50 ≤ (pySplit content).length

/-- One match of `{{[^}]*}}|\[\[Kategori:[^\]]*\]\]|\s` at the head of `l`:
the alternatives are tried left to right. -/
def tryInclAlt (l : List Char) : Option (List Char) :=
  match tryTemplate l with
  | some suffix => some suffix
  | none =>
    match tryKategori l with
    | some suffix => some suffix
    | none =>
      match l with
      | c :: rest => if isSpace c then some rest else none
      | [] => none

/-- The alternation pass of `is_include_only`:
`re.sub(r'{{[^}]*}}|\[\[Kategori:[^\]]*\]\]|\s', '', content)`. -/
def subInclAlt : Nat → List Char → List Char := subPass tryInclAlt

/-- Case-insensitive literal match (`re.IGNORECASE` modelled by comparing
`Char.toLower` on both sides); returns the remainder on success. -/
def dropLitCI : List Char → List Char → Option (List Char)
  | [], l => some l
  | _ :: _, [] => none
  | p :: ps, c :: cs => if p.toLower = c.toLower then dropLitCI ps cs else none

/-- First alternative of a `(?:a|b|...)` group matching at the head of `l`. -/
def firstAlt : List (List Char) → List Char → Option (List Char)
  | [], _ => none
  | a :: rest, l =>
    match dropLitCI a l with
    | some suffix => some suffix
    | none => firstAlt rest l

/-- One match of `{{\s*(?:alt1|alt2|...)` (IGNORECASE) at the head of `l`:
`{{`, a greedy whitespace run (the alternatives all start with a
non-whitespace letter, so no backtracking is possible), then an alternative. -/
def tryInclT (alts : List (List Char)) (l : List Char) : Option (List Char) :=
  match dropLit ['{', '{'] l with
  | none => none
  | some rest => firstAlt alts (rest.dropWhile isSpace)

/-- `len(re.findall(template, content, re.IGNORECASE))`: the number of
non-overlapping matches found by a left-to-right scan. -/
def countIncl (alts : List (List Char)) : Nat → List Char → Nat
  | 0, _ => 0
  | Nat.succ fuel, l =>
    match l with
    | [] => 0
    | c :: rest =>
      match tryInclT alts (c :: rest) with
      | some suffix => countIncl alts fuel suffix + 1
      | none => countIncl alts fuel rest

/-- The three `include_only_templates` patterns of `is_include_only`, each a
`{{\s*(?:...)` alternation of literals. -/
def inclAlts1 : List (List Char) := ["Include only".data, "Kun til inklusion".data]

/-- Second `include_only_templates` pattern alternatives. -/
def inclAlts2 : List (List Char) := ["navbox".data, "infoboks".data, "Infoboks".data]

/-- Third `include_only_templates` pattern alternatives. -/
def inclAlts3 : List (List Char) := ["tabel".data, "Table".data]

/-- One iteration of the `for template in include_only_templates` loop:
`re.search` succeeded (at least one match) and the ratio
`count / word_count` exceeds `0.8`.  The float comparison is modelled
exactly as `4 * word_count < 5 * count`. -/
def inclCheckOne (alts : List (List Char)) (content : List Char) : Bool :=
  let count := countIncl alts content.length content
  0 < count && 4 * (pySplit content).length < 5 * count

/-- `is_include_only` from `src/daqa/generate.py`.  Note the source rebinds
`content = content.lstrip()` first, so every later check runs on the
left-stripped content. -/
def is_include_only (content0 : List Char) : Bool :=
  let content := content0.dropWhile isSpace
  if ['}'].isPrefixOf content || ['|'].isPrefixOf content
      || ('<' :: '/' :: []).isPrefixOf content then true
  else if (subInclAlt content.length content).isEmpty then true
  else
    inclCheckOne inclAlts1 content || inclCheckOne inclAlts2 content
      || inclCheckOne inclAlts3 content

/-- A kept article: `{"title": ..., "content": ...}`. -/
structure Article where
  title : List Char
  content : List Char
deriving DecidableEq, Repr

/-- `process_article` from `src/daqa/generate.py`.  `parse` models
`str(mwparserfromhell.parse(·))`, with `none` standing for a raised
exception; it is an external collaborator, hence a parameter. -/
def process_article (title text : List Char)
    (parse : List Char → Option (List Char)) : Option Article :=
  if is_redirect text then none
  else
    match parse text with
    | none => some ⟨title, text⟩
    | some wikicode =>
      let content := cleanList wikicode
      if is_include_only content then none
      else if !(is_meaningful_article content) then none
      else some ⟨title, content⟩

/-- One question/answer record with the Danish keys `spørgsmål`/`svar`. -/
structure QAPair where
  spoergsmaal : List Char
  svar : List Char
deriving DecidableEq, Repr

/-- External library capabilities used by `generate_questions`:
`hashlib.md5(...).hexdigest()` on the UTF-8 bytes of its input string, and
`json.loads` / `json.dumps` specialised to the question/answer payloads this
program reads and writes (`loads` returning `none` models a raised
exception). -/
structure Ext where
  md5hex : List Char → List Char
  loads : List Char → Option (List QAPair)
  dumps : List QAPair → List Char

/-- The cache directory: an association list from file name to file
contents; lookup takes the first (most recent) binding, so prepending a
binding models overwriting the file. -/
abbrev Cache := List (List Char × List Char)

/-- `os.path.exists` + `open(...).read()` combined: the contents of the
named cache file, if it exists. -/
def lookupCache (k : List Char) : Cache → Option (List Char)
  | [] => none
  | (k', v) :: rest => if k' = k then some v else lookupCache k rest

/-- `os.path.join(cache_dir, f"{article_hash}.json")` with
`article_hash = hashlib.md5((title + content).encode()).hexdigest()`. -/
def cacheFileName (ext : Ext) (a : Article) : List Char :=
  ext.md5hex (a.title ++ a.content) ++ ('.' :: 'j' :: 's' :: 'o' :: 'n' :: [])

/-- Outcome of one API attempt: a transport-level exception from
`client.chat.completions.create`, or a response whose
`choices[0].message.content` is `None` (empty) or a text body. -/
inductive ApiOutcome where
  | error : ApiOutcome
  | success : Option (List Char) → ApiOutcome

/-- The body of one `try:` iteration of the retry loop, up to the cache
write: `some qa` when the attempt produced parsable question/answer pairs,
`none` when anything raised (transport error, `ValueError` on an empty
response, or `json.loads` failure on a malformed body). -/
def genStep (ext : Ext) : ApiOutcome → Option (List QAPair)
  | .error => none
  | .success none => none
  | .success (some body) => ext.loads body

/-- Result of a `generate_questions` call: the returned value (or a
propagated exception, `Except.error`), the resulting cache directory, the
number of API calls issued, and the list of `time.sleep` durations in
order. -/
structure GenOutcome where
  result : Except Unit (List QAPair)
  cache : Cache
  apiCalls : Nat
  sleeps : List Nat
deriving Repr

/-- The `for attempt in range(max_retries)` loop of `generate_questions`:
`attempt` is the current index, the second argument the number of remaining
iterations.  On success the parsed pairs are written to the cache file and
returned; on failure the loop sleeps 2 seconds when `attempt <
max_retries - 1` and retries; after exhaustion it returns `[]`. -/
def genLoop (ext : Ext) (file : List Char) (api : Nat → ApiOutcome)
    (cache : Cache) : Nat → Nat → GenOutcome
  | _, 0 => ⟨.ok [], cache, 0, []⟩
  | attempt, Nat.succ remaining =>
    match genStep ext (api attempt) with
    | some qa => ⟨.ok qa, (file, ext.dumps qa) :: cache, 1, []⟩
    | none =>
      let r := genLoop ext file api cache (attempt + 1) remaining
      ⟨r.result, r.cache, r.apiCalls + 1, (if 0 < remaining then [2] else []) ++ r.sleeps⟩

/-- `generate_questions` from `src/daqa/generate.py`.  `api` gives the
outcome of the external API call on each attempt index.  A cache hit returns
`json.loads` of the file contents without any API call; a `json.loads`
failure there is outside the `try`, so it propagates (`Except.error`). -/
def generate_questions (ext : Ext) (a : Article) (api : Nat → ApiOutcome)
    (cache : Cache) : GenOutcome :=
  let file := cacheFileName ext a
  match lookupCache file cache with
  | some contents =>
    match ext.loads contents with
    | some qa => ⟨.ok qa, cache, 0, []⟩
    | none => ⟨.error (), cache, 0, []⟩
  | none => genLoop ext file api cache 0 3

/-- A concrete meaningful article body used as a test input: 50 words,
350 characters, no wiki markup. -/
def wBig : List Char := (List.replicate 50 ("hhello ".data)).flatten

/-! ### Helper lemmas -/

theorem dropLit_eq_some (p : List Char) :
    ∀ l r, dropLit p l = some r → l = p ++ r := by
  induction p with
  | nil =>
    intro l r h
    simp [dropLit] at h
    simp [h]
  | cons p ps ih =>
    intro l r h
    cases l with
    | nil => simp [dropLit] at h
    | cons c cs =>
      by_cases hpc : p = c
      · subst hpc
        simp [dropLit] at h
        simp [ih cs r h]
      · simp [dropLit, hpc] at h

theorem hasSub_iff (pat : List Char) : ∀ l, hasSub pat l = true ↔ pat <:+: l := by
  intro l
  induction l with
  | nil => simp [hasSub, List.isEmpty_iff]
  | cons c rest ih =>
    simp [hasSub, List.infix_cons_iff, List.isPrefixOf_iff_prefix, ih]

theorem hasSub_false_of_contained {pat l l' : List Char} (hl : l' <:+: l)
    (h : hasSub pat l = false) : hasSub pat l' = false := by
  by_contra hc
  rw [Bool.not_eq_false, hasSub_iff] at hc
  rw [← Bool.not_eq_true, hasSub_iff] at h
  exact h (hc.trans hl)

theorem tryTemplate_trig {l s : List Char} (h : tryTemplate l = some s) :
    ('{' :: '{' :: []) <+: l := by
  unfold tryTemplate at h
  cases hd : dropLit ('{' :: '{' :: []) l with
  | none => simp [hd] at h
  | some rest => exact ⟨rest, (dropLit_eq_some _ _ _ hd).symm⟩

theorem tryKategori_trig {l s : List Char} (h : tryKategori l = some s) :
    ('[' :: '[' :: []) <+: l := by
  unfold tryKategori at h
  cases hd : dropLit ('[' :: '[' :: 'K' :: 'a' :: 't' :: 'e' :: 'g' :: 'o' :: 'r' :: 'i' :: ':' :: []) l with
  | none => simp [hd] at h
  | some rest =>
    exact ⟨('K' :: 'a' :: 't' :: 'e' :: 'g' :: 'o' :: 'r' :: 'i' :: ':' :: []) ++ rest,
      by simp [dropLit_eq_some _ _ _ hd]⟩

theorem tryExtLink_trig {l s : List Char} (h : tryExtLink l = some s) :
    ('[' :: 'h' :: 't' :: 't' :: 'p' :: []) <+: l := by
  unfold tryExtLink at h
  cases hd : dropLit ('[' :: 'h' :: 't' :: 't' :: 'p' :: []) l with
  | none => simp [hd] at h
  | some rest => exact ⟨rest, (dropLit_eq_some _ _ _ hd).symm⟩

theorem tryComment_trig {l s : List Char} (h : tryComment l = some s) :
    ('<' :: '!' :: '-' :: '-' :: []) <+: l := by
  unfold tryComment at h
  cases hd : dropLit ('<' :: '!' :: '-' :: '-' :: []) l with
  | none => simp [hd] at h
  | some rest => exact ⟨rest, (dropLit_eq_some _ _ _ hd).symm⟩

theorem tryRef_trig {l s : List Char} (h : tryRef l = some s) :
    ('<' :: 'r' :: 'e' :: 'f' :: []) <+: l := by
  unfold tryRef at h
  cases hd : dropLit ('<' :: 'r' :: 'e' :: 'f' :: []) l with
  | none => simp [hd] at h
  | some rest => exact ⟨rest, (dropLit_eq_some _ _ _ hd).symm⟩

theorem tryLink_trig {l : List Char} {s : List Char × List Char}
    (h : tryLink l = some s) : ('[' :: '[' :: []) <+: l := by
  unfold tryLink at h
  cases hd : dropLit ('[' :: '[' :: []) l with
  | none => simp [hd] at h
  | some rest => exact ⟨rest, (dropLit_eq_some _ _ _ hd).symm⟩

/-- A `subPass` whose matcher never fires on a markup-free input is the
identity, for any amount of fuel. -/
theorem subPass_id (tryF : List Char → Option (List Char)) (trig : List Char)
    (htry : ∀ l s, tryF l = some s → trig <+: l) :
    ∀ (fuel : Nat) (l : List Char), hasSub trig l = false → subPass tryF fuel l = l := by
  intro fuel
  induction fuel with
  | zero => intro l _; rfl
  | succ fuel ih =>
    intro l h
    cases l with
    | nil => rfl
    | cons c rest =>
      have hor : trig.isPrefixOf (c :: rest) = false ∧ hasSub trig rest = false := by
        simpa [hasSub, Bool.or_eq_false_iff] using h
      cases htf : tryF (c :: rest) with
      | some s =>
        exact absurd (List.isPrefixOf_iff_prefix.mpr (htry _ _ htf)) (by simp [hor.1])
      | none => simp [subPass, htf, ih rest hor.2]

/-- `subLinks` is the identity on inputs with no `[[` occurrence. -/
theorem subLinks_id :
    ∀ (fuel : Nat) (l : List Char), hasSub ('[' :: '[' :: []) l = false →
      subLinks fuel l = l := by
  intro fuel
  induction fuel with
  | zero => intro l _; rfl
  | succ fuel ih =>
    intro l h
    cases l with
    | nil => rfl
    | cons c rest =>
      have hor : ('[' :: '[' :: []).isPrefixOf (c :: rest) = false
          ∧ hasSub ('[' :: '[' :: []) rest = false := by
        simpa [hasSub, Bool.or_eq_false_iff] using h
      cases htf : tryLink (c :: rest) with
      | some s =>
        exact absurd (List.isPrefixOf_iff_prefix.mpr (tryLink_trig htf)) (by simp [hor.1])
      | none => simp [subLinks, htf, ih rest hor.2]

theorem pythonStrip_eq (l : List Char) :
    pythonStrip l = List.rdropWhile isSpace (l.dropWhile isSpace) := rfl

theorem pythonStrip_infix (l : List Char) : pythonStrip l <:+: l := by
  rw [pythonStrip_eq]
  exact (List.rdropWhile_prefix isSpace _).isInfix.trans
    (List.dropWhile_suffix isSpace).isInfix

theorem dropWhile_rdrop_self (l : List Char) :
    (List.rdropWhile isSpace (l.dropWhile isSpace)).dropWhile isSpace
      = List.rdropWhile isSpace (l.dropWhile isSpace) := by
  obtain ⟨t, ht⟩ := List.rdropWhile_prefix isSpace (l.dropWhile isSpace)
  cases hB : List.rdropWhile isSpace (l.dropWhile isSpace) with
  | nil => rfl
  | cons c B' =>
    have hAc : l.dropWhile isSpace = c :: (B' ++ t) := by
      rw [← ht, hB]; simp
    have h0 : 0 < (l.dropWhile isSpace).length := by rw [hAc]; simp
    have hc := List.dropWhile_get_zero_not (p := isSpace) l h0
    rw [List.get_mk_zero] at hc
    simp only [hAc, List.head_cons] at hc
    rw [List.dropWhile_cons, if_neg hc]

theorem pythonStrip_idem (l : List Char) :
    pythonStrip (pythonStrip l) = pythonStrip l := by
  rw [pythonStrip_eq (pythonStrip l), pythonStrip_eq l, dropWhile_rdrop_self l,
    List.rdropWhile_idempotent]

theorem toLower_space {c : Char} (h : isSpace c = true) : Char.toLower c = c := by
  simp [isSpace] at h
  rcases h with ((((h|h)|h)|h)|h)|h <;> subst h <;> decide

theorem prefix_of_append_singleton_space {m A : List Char} {y : Char}
    (hm : ∀ c ∈ m, isSpace c = false) (hy : isSpace y = true)
    (h : m <+: A ++ [y]) : m <+: A := by
  obtain ⟨t, ht⟩ := h
  cases t using List.reverseRecOn with
  | nil =>
    exfalso
    simp at ht
    have hym : y ∈ m := by rw [ht]; simp
    simp [hm y hym] at hy
  | append_singleton ts z =>
    rw [← List.append_assoc] at ht
    exact ⟨ts, (List.append_inj' ht rfl).1⟩

theorem prefix_map_rdrop (m : List Char) (hm : ∀ c ∈ m, isSpace c = false) :
    ∀ d : List Char, m <+: d.map Char.toLower →
      m <+: (List.rdropWhile isSpace d).map Char.toLower := by
  intro d
  induction d using List.reverseRecOn with
  | nil => intro h; simpa using h
  | append_singleton ds x ih =>
    intro h
    by_cases hx : isSpace x = true
    · rw [List.rdropWhile_concat_pos _ _ _ hx]
      apply ih
      rw [List.map_append] at h
      exact prefix_of_append_singleton_space hm
        (by rw [toLower_space hx]; exact hx) h
    · rw [List.rdropWhile_concat_neg _ _ _ (by simpa using hx)]
      exact h

theorem is_redirect_of_ltrim {text : List Char}
    (h : ('#' :: 'r' :: 'e' :: 'd' :: 'i' :: 'r' :: 'e' :: 'c' :: 't' :: []).isPrefixOf
        ((text.dropWhile isSpace).map Char.toLower) = true) :
    is_redirect text = true := by
  unfold is_redirect
  rw [List.isPrefixOf_iff_prefix] at h ⊢
  rw [pythonStrip_eq]
  exact prefix_map_rdrop _ (by decide) _ h

/-- On markup-free input every substitution pass of `clean_wikitext` is the
identity, so cleaning is just stripping. -/
theorem cleanList_eq_strip (x : List Char)
    (h1 : hasSub ('{' :: '{' :: []) x = false)
    (h2 : hasSub ('[' :: '[' :: []) x = false)
    (h3 : hasSub ('[' :: 'h' :: 't' :: 't' :: 'p' :: []) x = false)
    (h4 : hasSub ('<' :: '!' :: '-' :: '-' :: []) x = false)
    (h5 : hasSub ('<' :: 'r' :: 'e' :: 'f' :: []) x = false) :
    cleanList x = pythonStrip x := by
  have e1 : subTemplates x.length x = x :=
    subPass_id tryTemplate _ (fun _ _ h => tryTemplate_trig h) x.length x h1
  have e2 : subKategori x.length x = x :=
    subPass_id tryKategori _ (fun _ _ h => tryKategori_trig h) x.length x h2
  have e3 : subExtLink x.length x = x :=
    subPass_id tryExtLink _ (fun _ _ h => tryExtLink_trig h) x.length x h3
  have e4 : subComment x.length x = x :=
    subPass_id tryComment _ (fun _ _ h => tryComment_trig h) x.length x h4
  have e5 : subRef x.length x = x :=
    subPass_id tryRef _ (fun _ _ h => tryRef_trig h) x.length x h5
  have e6 : subLinks x.length x = x := subLinks_id x.length x h2
  simp only [cleanList]
  rw [e1, e2, e3, e4, e5, e6]

/-- If the first `i` attempts of the retry loop fail and attempt `i`
(within range) succeeds with `qa`, the loop writes one cache file, makes
`i + 1` API calls and sleeps 2 seconds `i` times. -/
theorem genLoop_success (ext : Ext) (file : List Char) (api : Nat → ApiOutcome)
    (cache : Cache) (qa : List QAPair) :
    ∀ (i attempt remaining : Nat), i < remaining →
      (∀ j, j < i → genStep ext (api (attempt + j)) = none) →
      genStep ext (api (attempt + i)) = some qa →
      genLoop ext file api cache attempt remaining =
        ⟨.ok qa, (file, ext.dumps qa) :: cache, i + 1, List.replicate i 2⟩ := by
  intro i
  induction i with
  | zero =>
    intro attempt remaining hlt _ hsucc
    cases remaining with
    | zero => omega
    | succ rem =>
      rw [Nat.add_zero] at hsucc
      simp [genLoop, hsucc]
  | succ i ih =>
    intro attempt remaining hlt hprev hsucc
    cases remaining with
    | zero => omega
    | succ rem =>
      have hfirst : genStep ext (api attempt) = none := by
        have h := hprev 0 (Nat.succ_pos i)
        rwa [Nat.add_zero] at h
      have hrec := ih (attempt + 1) rem (by omega)
        (fun j hj => by
          have h := hprev (j + 1) (by omega)
          rwa [show attempt + (j + 1) = attempt + 1 + j by omega] at h)
        (by rwa [show attempt + (i + 1) = attempt + 1 + i by omega] at hsucc)
      simp [genLoop, hfirst, hrec, show (0:Nat) < rem by omega, List.replicate_succ]

end Daqa

/-! ### Claims -/

namespace Daqa

/-- Claim C3: for every non-redirect raw text on which wikitext parsing
raises an exception, `process_article` does not skip the article: it returns
the article kept with its raw, unparsed and uncleaned text as content. -/
theorem process_article_parse_failure_keeps_raw (title text : List Char)
    (parse : List Char → Option (List Char))
    (hred : is_redirect text = false) (hparse : parse text = none) :
    process_article title text parse = some ⟨title, text⟩ := by
  simp [process_article, hred, hparse]

/-- Witness for C3 at a concrete non-redirect input with a failing parser. -/
theorem process_article_parse_failure_keeps_raw_witness :
    is_redirect ('a' :: 'b' :: []) = false ∧
    process_article ('t' :: []) ('a' :: 'b' :: []) (fun _ => none)
      = some ⟨'t' :: [], 'a' :: 'b' :: []⟩ :=
  ⟨by decide, process_article_parse_failure_keeps_raw _ _ _ (by decide) rfl⟩

/-- Claim C4: every raw text that, after trimming leading whitespace and
case-folding, starts with the marker `#redirect` is classified as a skip:
`process_article` returns `none`, regardless of the rest of the text. -/
theorem process_article_redirect_skip (title text : List Char)
    (parse : List Char → Option (List Char))
    (h : ('#' :: 'r' :: 'e' :: 'd' :: 'i' :: 'r' :: 'e' :: 'c' :: 't' :: []).isPrefixOf
        ((text.dropWhile isSpace).map Char.toLower) = true) :
    process_article title text parse = none := by
  simp [process_article, is_redirect_of_ltrim h]

/-- Witness for C4 at the spec's scenario input `#REDIRECT [[Other Page]]`. -/
theorem process_article_redirect_skip_witness :
    ('#' :: 'r' :: 'e' :: 'd' :: 'i' :: 'r' :: 'e' :: 'c' :: 't' :: []).isPrefixOf
        ((("#REDIRECT [[Other Page]]".data).dropWhile isSpace).map Char.toLower) = true ∧
    process_article ('t' :: []) ("#REDIRECT [[Other Page]]".data) (fun w => some w) = none :=
  ⟨by decide, process_article_redirect_skip _ _ _ (by decide)⟩

/-- Claim C5: every wikitext whose cleaned content has character length
below 300 or whitespace-separated word count below 50 is classified as a
skip: `process_article` returns `none`. -/
theorem process_article_short_skip (title text w : List Char)
    (parse : List Char → Option (List Char)) (hparse : parse text = some w)
    (hshort : (cleanList w).length < 300 ∨ (pySplit (cleanList w)).length < 50) :
    process_article title text parse = none := by
  have hmean : is_meaningful_article (cleanList w) = false := by
    simp only [is_meaningful_article, Bool.and_eq_false_iff, decide_eq_false_iff_not,
      Nat.not_le]
    rcases hshort with h | h
    · exact Or.inl h
    · exact Or.inr h
  by_cases hred : is_redirect text
  · simp [process_article, hred]
  · by_cases hincl : is_include_only (cleanList w)
    · simp [process_article, hred, hparse, hincl]
    · simp [process_article, hred, hparse, hincl, hmean]

/-- Witness for C5 at a one-character wikitext. -/
theorem process_article_short_skip_witness :
    (cleanList ('w' :: [])).length < 300 ∧
    process_article ('t' :: []) ('x' :: []) (fun _ => some ('w' :: [])) = none :=
  ⟨by decide,
    process_article_short_skip _ _ _ _ rfl (Or.inl (by decide))⟩

/-- Claim C8: internal links are rewritten to their label: cleaning
`[[København|byen]] er en by.` yields `byen er en by.`. -/
theorem clean_wikitext_link_scenario :
    clean_wikitext "[[København|byen]] er en by." = "byen er en by." := by
  decide

/-- Claim C9: if a cache file exists for `md5(title + content)` but its
contents do not parse, `generate_questions` propagates the exception: the
corrupted file is not a cache miss, the retry loop is not entered (no API
call), and no empty list is returned. -/
theorem generate_questions_corrupt_cache_raises (ext : Ext) (a : Article)
    (api : Nat → ApiOutcome) (cache : Cache) (v : List Char)
    (hv : lookupCache (cacheFileName ext a) cache = some v)
    (hbad : ext.loads v = none) :
    generate_questions ext a api cache = ⟨.error (), cache, 0, []⟩ := by
  simp [generate_questions, hv, hbad]

/-- Witness for C9: a one-entry cache whose file contents never parse. -/
theorem generate_questions_corrupt_cache_raises_witness :
    lookupCache
        (cacheFileName ⟨fun _ => [], fun _ => none, fun _ => []⟩ ⟨'t' :: [], 'c' :: []⟩)
        [(('.' :: 'j' :: 's' :: 'o' :: 'n' :: []), 'v' :: [])] = some ('v' :: []) ∧
    generate_questions ⟨fun _ => [], fun _ => none, fun _ => []⟩ ⟨'t' :: [], 'c' :: []⟩
        (fun _ => ApiOutcome.error) [(('.' :: 'j' :: 's' :: 'o' :: 'n' :: []), 'v' :: [])]
      = ⟨.error (), [(('.' :: 'j' :: 's' :: 'o' :: 'n' :: []), 'v' :: [])], 0, []⟩ :=
  ⟨rfl, generate_questions_corrupt_cache_raises _ _ _ _ _ rfl rfl⟩

end Daqa

namespace Daqa

/-- Claim C1: when the cache misses and all 3 generation attempts fail
(transport error, empty body or unparsable body), `generate_questions`
sleeps the fixed 2-second interval between consecutive attempts, returns
the empty list rather than raising, and leaves the cache unchanged (no
cache file is written). -/
theorem generate_questions_all_fail (ext : Ext) (a : Article)
    (api : Nat → ApiOutcome) (cache : Cache)
    (hmiss : lookupCache (cacheFileName ext a) cache = none)
    (hfail : ∀ i, i < 3 → genStep ext (api i) = none) :
    generate_questions ext a api cache = ⟨.ok [], cache, 3, [2, 2]⟩ := by
  have h0 := hfail 0 (by omega)
  have h1 := hfail 1 (by omega)
  have h2 := hfail 2 (by omega)
  simp [generate_questions, hmiss, genLoop, h0, h1, h2]

/-- Witness for C1: an empty cache and an API that always raises. -/
theorem generate_questions_all_fail_witness :
    lookupCache
        (cacheFileName ⟨fun _ => 'h' :: [], fun _ => none, fun _ => []⟩ ⟨'t' :: [], 'c' :: []⟩)
        [] = none ∧
    generate_questions ⟨fun _ => 'h' :: [], fun _ => none, fun _ => []⟩ ⟨'t' :: [], 'c' :: []⟩
        (fun _ => ApiOutcome.error) [] = ⟨.ok [], [], 3, [2, 2]⟩ :=
  ⟨rfl, generate_questions_all_fail _ _ _ _ rfl (fun _ _ => rfl)⟩

/-- Claim C2: the cache key is a pure function of `title + content`, and on
a populated cache `generate_questions` deserializes and returns the cached
artifact without issuing any API call and without modifying the cache —
hence a second call with identical inputs and a populated cache never
issues an API call. -/
theorem generate_questions_cache_pure (ext : Ext) (a b : Article)
    (api : Nat → ApiOutcome) (cache : Cache) (v : List Char)
    (hab : a.title ++ a.content = b.title ++ b.content)
    (hv : lookupCache (cacheFileName ext a) cache = some v) :
    cacheFileName ext a = cacheFileName ext b ∧
    (generate_questions ext a api cache).apiCalls = 0 ∧
    (generate_questions ext a api cache).cache = cache ∧
    ∀ qa, ext.loads v = some qa →
      (generate_questions ext a api cache).result = Except.ok qa := by
  have hmain : ∀ qa, ext.loads v = some qa →
      generate_questions ext a api cache = ⟨.ok qa, cache, 0, []⟩ := by
    intro qa hqa
    simp [generate_questions, hv, hqa]
  have herr : ext.loads v = none →
      generate_questions ext a api cache = ⟨.error (), cache, 0, []⟩ := by
    intro hqa
    simp [generate_questions, hv, hqa]
  refine ⟨by unfold cacheFileName; rw [hab], ?_, ?_, ?_⟩
  · cases hl : ext.loads v with
    | none => rw [herr hl]
    | some qa => rw [hmain qa hl]
  · cases hl : ext.loads v with
    | none => rw [herr hl]
    | some qa => rw [hmain qa hl]
  · intro qa hqa
    rw [hmain qa hqa]

/-- Witness for C2: a populated one-entry cache that parses back. -/
theorem generate_questions_cache_pure_witness :
    (⟨'t' :: [], 'c' :: []⟩ : Article).title ++ (⟨'t' :: [], 'c' :: []⟩ : Article).content
      = (⟨'t' :: [], 'c' :: []⟩ : Article).title ++ (⟨'t' :: [], 'c' :: []⟩ : Article).content ∧
    lookupCache
        (cacheFileName ⟨fun _ => [], fun _ => some [], fun _ => []⟩ ⟨'t' :: [], 'c' :: []⟩)
        [(('.' :: 'j' :: 's' :: 'o' :: 'n' :: []), 'v' :: [])] = some ('v' :: []) ∧
    (cacheFileName ⟨fun _ => [], fun _ => some [], fun _ => []⟩ ⟨'t' :: [], 'c' :: []⟩
        = cacheFileName ⟨fun _ => [], fun _ => some [], fun _ => []⟩ ⟨'t' :: [], 'c' :: []⟩ ∧
      (generate_questions ⟨fun _ => [], fun _ => some [], fun _ => []⟩ ⟨'t' :: [], 'c' :: []⟩
          (fun _ => ApiOutcome.error) [(('.' :: 'j' :: 's' :: 'o' :: 'n' :: []), 'v' :: [])]).apiCalls = 0 ∧
      (generate_questions ⟨fun _ => [], fun _ => some [], fun _ => []⟩ ⟨'t' :: [], 'c' :: []⟩
          (fun _ => ApiOutcome.error) [(('.' :: 'j' :: 's' :: 'o' :: 'n' :: []), 'v' :: [])]).cache
        = [(('.' :: 'j' :: 's' :: 'o' :: 'n' :: []), 'v' :: [])] ∧
      ∀ qa, (⟨fun _ => [], fun _ => some [], fun _ => []⟩ : Ext).loads ('v' :: []) = some qa →
        (generate_questions ⟨fun _ => [], fun _ => some [], fun _ => []⟩ ⟨'t' :: [], 'c' :: []⟩
            (fun _ => ApiOutcome.error) [(('.' :: 'j' :: 's' :: 'o' :: 'n' :: []), 'v' :: [])]).result
          = Except.ok qa) :=
  ⟨rfl, rfl, generate_questions_cache_pure _ _ _ _ _ _ rfl rfl⟩

/-- Claim C6: when the cache misses and an API attempt succeeds with a body
parsing as a valid list of 5 question/answer records (after any earlier
failed attempts), `generate_questions` writes exactly one cache file, whose
name is the hex digest of `md5(title + content)` followed by `.json`, and
returns the parsed pairs unmodified. -/
theorem generate_questions_success_writes_cache (ext : Ext) (a : Article)
    (api : Nat → ApiOutcome) (cache : Cache) (i : Nat) (qa : List QAPair)
    (hmiss : lookupCache (cacheFileName ext a) cache = none)
    (hprev : ∀ j, j < i → genStep ext (api j) = none)
    (hi : i < 3) (hsucc : genStep ext (api i) = some qa)
    (hlen : qa.length = 5) :
    generate_questions ext a api cache =
      ⟨.ok qa,
        (ext.md5hex (a.title ++ a.content) ++ ('.' :: 'j' :: 's' :: 'o' :: 'n' :: []),
          ext.dumps qa) :: cache,
        i + 1, List.replicate i 2⟩ := by
  have hloop := genLoop_success ext (cacheFileName ext a) api cache qa i 0 3 hi
    (fun j hj => by rw [Nat.zero_add]; exact hprev j hj)
    (by rw [Nat.zero_add]; exact hsucc)
  have hred : generate_questions ext a api cache
      = genLoop ext (cacheFileName ext a) api cache 0 3 := by
    simp [generate_questions, hmiss]
  rw [hred, hloop]
  rfl

/-- Witness for C6: the first attempt raises, the second returns a body
parsing to 5 records. -/
theorem generate_questions_success_writes_cache_witness :
    lookupCache
        (cacheFileName
          ⟨fun _ => 'h' :: [], fun _ => some (List.replicate 5 ⟨[], []⟩), fun _ => 'd' :: []⟩
          ⟨'t' :: [], 'c' :: []⟩) [] = none ∧
    (∀ j, j < 1 →
      genStep ⟨fun _ => 'h' :: [], fun _ => some (List.replicate 5 ⟨[], []⟩), fun _ => 'd' :: []⟩
        ((fun n => if n = 0 then ApiOutcome.error else ApiOutcome.success (some ('b' :: []))) j)
        = none) ∧
    (List.replicate 5 (⟨[], []⟩ : QAPair)).length = 5 ∧
    generate_questions
        ⟨fun _ => 'h' :: [], fun _ => some (List.replicate 5 ⟨[], []⟩), fun _ => 'd' :: []⟩
        ⟨'t' :: [], 'c' :: []⟩
        (fun n => if n = 0 then ApiOutcome.error else ApiOutcome.success (some ('b' :: []))) []
      = ⟨.ok (List.replicate 5 ⟨[], []⟩),
          (('h' :: []) ++ ('.' :: 'j' :: 's' :: 'o' :: 'n' :: []), 'd' :: []) :: [],
          1 + 1, List.replicate 1 2⟩ :=
  ⟨rfl,
    fun j hj => by
      have hj0 : j = 0 := by omega
      subst hj0
      rfl,
    rfl,
    generate_questions_success_writes_cache _ _ _ _ 1 _ rfl
      (fun j hj => by
        have hj0 : j = 0 := by omega
        subst hj0
        rfl)
      (by omega) rfl rfl⟩

/-- Claim C7: cleaning is idempotent on already-clean plaintext containing
no wiki markup (no occurrence of any substring that can start a match of
one of the six substitution patterns):
`clean_wikitext (clean_wikitext x) = clean_wikitext x`. -/
theorem clean_wikitext_idempotent (x : String)
    (h1 : hasSub ('{' :: '{' :: []) x.data = false)
    (h2 : hasSub ('[' :: '[' :: []) x.data = false)
    (h3 : hasSub ('[' :: 'h' :: 't' :: 't' :: 'p' :: []) x.data = false)
    (h4 : hasSub ('<' :: '!' :: '-' :: '-' :: []) x.data = false)
    (h5 : hasSub ('<' :: 'r' :: 'e' :: 'f' :: []) x.data = false) :
    clean_wikitext (clean_wikitext x) = clean_wikitext x := by
  have key : cleanList (cleanList x.data) = cleanList x.data := by
    rw [cleanList_eq_strip _ h1 h2 h3 h4 h5]
    have hinf := pythonStrip_infix x.data
    rw [cleanList_eq_strip _ (hasSub_false_of_contained hinf h1)
      (hasSub_false_of_contained hinf h2) (hasSub_false_of_contained hinf h3)
      (hasSub_false_of_contained hinf h4) (hasSub_false_of_contained hinf h5)]
    exact pythonStrip_idem x.data
  exact congrArg String.mk key

/-- Witness for C7 at a concrete markup-free plaintext. -/
theorem clean_wikitext_idempotent_witness :
    hasSub ('{' :: '{' :: []) ("  En dansk by. ".data) = false ∧
    clean_wikitext (clean_wikitext "  En dansk by. ") = clean_wikitext "  En dansk by. " :=
  ⟨by decide,
    clean_wikitext_idempotent _ (by decide) (by decide) (by decide) (by decide) (by decide)⟩

end Daqa

namespace Daqa

/-- Claim C10: whenever `process_article` keeps an article and wikitext
parsing succeeded, the returned content is `clean_wikitext` of the parsed
text and satisfies the invariant: length at least 300 characters, at least
50 words, not classified include-only, and the raw text was no redirect. -/
theorem process_article_kept_invariant (title text w : List Char)
    (parse : List Char → Option (List Char)) (a : Article)
    (hparse : parse text = some w)
    (hkeep : process_article title text parse = some a) :
    a.content = cleanList w ∧ 300 ≤ a.content.length ∧
      50 ≤ (pySplit a.content).length ∧
      is_include_only a.content = false ∧ is_redirect text = false := by
  by_cases hred : is_redirect text
  · simp [process_article, hred] at hkeep
  · by_cases hincl : is_include_only (cleanList w)
    · simp [process_article, hred, hparse, hincl] at hkeep
    · by_cases hmean : is_meaningful_article (cleanList w)
      · have hk : a.content = cleanList w := by
          simp [process_article, hred, hparse, hincl, hmean] at hkeep
          rw [← hkeep]
        simp only [is_meaningful_article, Bool.and_eq_true, decide_eq_true_eq] at hmean
        refine ⟨hk, ?_, ?_, ?_, by simpa using hred⟩
        · rw [hk]; exact hmean.1
        · rw [hk]; exact hmean.2
        · rw [hk]; simpa using hincl
      · simp [process_article, hred, hparse, hincl, hmean] at hkeep

set_option maxRecDepth 100000 in
/-- Witness for C10 on a concrete kept article (50 words, 350 characters,
no markup). -/
theorem process_article_kept_invariant_witness :
    (fun _ => some wBig) wBig = some wBig ∧
    process_article ('t' :: []) wBig (fun _ => some wBig)
      = some ⟨'t' :: [], cleanList wBig⟩ ∧
    ((⟨'t' :: [], cleanList wBig⟩ : Article).content = cleanList wBig ∧
      300 ≤ (⟨'t' :: [], cleanList wBig⟩ : Article).content.length ∧
      50 ≤ (pySplit (⟨'t' :: [], cleanList wBig⟩ : Article).content).length ∧
      is_include_only (⟨'t' :: [], cleanList wBig⟩ : Article).content = false ∧
      is_redirect wBig = false) :=
  ⟨rfl, by decide,
    process_article_kept_invariant ('t' :: []) wBig wBig (fun _ => some wBig)
      ⟨'t' :: [], cleanList wBig⟩ rfl (by decide)⟩

end Daqa
